import Mathlib

/-!
Shallow embedding of the leaderboard backend (src/src/index.ts).

The backend keeps two record sets in its store: `leaderboard` rows
(name, score, timestamp) and `player_activity` rows (name,
last_submission, submission_count, first_seen, session_id), both
keyed by the lower-cased player name.  JS numbers that flow through
the API are modelled as rationals (`ℚ`); timestamps from `Date.now()`
are integers (`ℤ`).  SQL row order is the insertion order of the
lists; `ORDER BY score DESC` is a stable sort on that order.
Effectful functions take the store and the current time explicitly
and return the new store; the fresh token produced by
`generateSessionId` is passed in as a parameter.
-/

namespace Laciola

/-- A row of the `leaderboard` table. -/
structure ScoreRecord where
  name : String
  score : ℚ
  timestamp : ℤ
deriving Repr, DecidableEq

/-- A row of the `player_activity` table. -/
structure ActivityRecord where
  name : String
  lastSubmission : ℤ
  submissionCount : ℤ
  firstSeen : ℤ
  sessionId : String
deriving Repr, DecidableEq

/-- The persistent store: both tables, rows in insertion order. -/
structure Store where
  leaderboard : List ScoreRecord
  activity : List ActivityRecord
deriving Repr, DecidableEq

/-- JS `String.prototype.toLowerCase` on one character (ASCII range; the
names that reach it are validated to `[a-zA-Z0-9_]`). -/
def jsToLower (c : Char) : Char :=
  if 'A' ≤ c ∧ c ≤ 'Z' then Char.ofNat (c.toNat + 32) else c

/-- JS `String.prototype.toLowerCase`. -/
def strToLower (s : String) : String := ⟨s.data.map jsToLower⟩

/-- JS `String.prototype.trim`: strip leading and trailing whitespace. -/
def strTrim (s : String) : String :=
  ⟨((s.data.dropWhile Char.isWhitespace).reverse.dropWhile Char.isWhitespace).reverse⟩

/-- Character class `[a-zA-Z0-9_]` of the name regex. -/
def wordChar (c : Char) : Bool :=
  ('a' ≤ c && c ≤ 'z') || ('A' ≤ c && c ≤ 'Z') || ('0' ≤ c && c ≤ '9') || c = '_'

/-- `isValidName`: full-string match of `/^[a-zA-Z0-9_]{3,16}$/`.
No trimming happens inside this function. -/
def isValidName (name : String) : Bool :=
  name.data.all wordChar && decide (3 ≤ name.length) && decide (name.length ≤ 16)

/-- `MAX_SCORE`: maximum reasonable score (1 per second, max 1 hour). -/
def MAX_SCORE : ℚ := 3600

/-- `isValidScore`: `score > 0 && score <= MAX_SCORE && Number.isInteger(score)`.
`Number.isInteger` on a rational is `den = 1`. -/
def isValidScore (score : ℚ) : Bool :=
  decide (0 < score) && decide (score ≤ MAX_SCORE) && (score.den == 1)

/-- Result of `checkRateLimit`: `{allowed: bool, reason?: string}`. -/
inductive RateResult where
  | allowed : RateResult
  | denied : String → RateResult
deriving Repr, DecidableEq

/-- Cooldown denial reason string. -/
def cooldownMsg : String := "Aspetta almeno 30 secondi tra i tentativi"

/-- Daily-quota denial reason string. -/
def quotaMsg : String := "Troppi tentativi oggi. Riprova domani."

/-- `(now - activity.firstSeen) / (1000 * 60 * 60 * 24)` as a rational. -/
def daysSinceFirst (now : ℤ) (a : ActivityRecord) : ℚ :=
  ((now - a.firstSeen : ℤ) : ℚ) / (1000 * 60 * 60 * 24)

/-- Session id actually stored on first contact:
`sessionId || generateSessionId()` (JS `||` treats `""` as falsy). -/
def sessionIdOr (sid : Option String) (tok : String) : String :=
  match sid with
  | some h => if h = "" then tok else h
  | none => tok

/-- `checkRateLimit(db, playerName, sessionId)`, with `now` and the
freshly generated token passed explicitly. -/
def checkRateLimit (s : Store) (now : ℤ) (playerName : String)
    (sessionId : Option String) (tok : String) : RateResult × Store :=
  let playerKey := strToLower playerName
  match s.activity.find? (fun a => a.name == playerKey) with
  | none =>
      (RateResult.allowed,
        { s with activity := s.activity ++
            [{ name := playerKey, lastSubmission := now, submissionCount := 1,
               firstSeen := now, sessionId := sessionIdOr sessionId tok }] })
  | some activity =>
      if now - activity.lastSubmission < 30000 then
        (RateResult.denied cooldownMsg, s)
      else if daysSinceFirst now activity < 1 ∧ 50 ≤ activity.submissionCount then
        (RateResult.denied quotaMsg, s)
      else
        (RateResult.allowed,
          { s with activity := s.activity.map (fun a =>
              if a.name == playerKey then
                { a with lastSubmission := now,
                         submissionCount := a.submissionCount + 1 }
              else a) })

/-- Result of `validateScoreProgression`. -/
inductive ProgResult where
  | valid : ProgResult
  | invalid : String → ProgResult
deriving Repr, DecidableEq

/-- Progression denial reason for a stored best of `sc`. -/
def progressionMsg (sc : ℚ) : String :=
  "Devi superare il tuo record di " ++ toString sc ++ " punti"

/-- `validateScoreProgression(db, playerName, newScore)`. -/
def validateScoreProgression (s : Store) (playerName : String)
    (newScore : ℚ) : ProgResult :=
  let playerKey := strToLower playerName
  match s.leaderboard.find? (fun r => r.name == playerKey) with
  | none => ProgResult.valid
  | some existingEntry =>
      if newScore ≤ existingEntry.score then
        ProgResult.invalid (progressionMsg existingEntry.score)
      else ProgResult.valid

/-- Result of the submit-score endpoint. -/
inductive SubmitResult where
  | ok : String → SubmitResult
  | err : String → SubmitResult
deriving Repr, DecidableEq

/-- Invalid-name rejection message. -/
def invalidNameMsg : String := "Nome non valido! Usa 3-16 caratteri (lettere, numeri, _)"

/-- Invalid-score rejection message. -/
def invalidScoreMsg : String := "Punteggio non valido o sospetto"

/-- Success message. -/
def savedMsg : String := "Punteggio salvato!"

/-- The final upsert of the submit-score endpoint: update the row if the
key exists, insert a new one otherwise. -/
def upsertScore (s : Store) (now : ℤ) (key : String) (sc : ℚ) :
    SubmitResult × Store :=
  match s.leaderboard.find? (fun r => r.name == key) with
  | some _ =>
      (SubmitResult.ok savedMsg,
        { s with leaderboard := s.leaderboard.map (fun r =>
            if r.name == key then { r with score := sc, timestamp := now }
            else r) })
  | none =>
      (SubmitResult.ok savedMsg,
        { s with leaderboard := s.leaderboard ++
            [{ name := key, score := sc, timestamp := now }] })

/-- The part of the submit-score handler after the input-format guards:
rate limit, then score progression, then upsert.  `playerName` is the
trimmed name. -/
def submitCore (s : Store) (now : ℤ) (playerName : String) (sc : ℚ)
    (sessionId : Option String) (tok : String) : SubmitResult × Store :=
  match checkRateLimit s now playerName sessionId tok with
  | (RateResult.denied reason, s1) => (SubmitResult.err reason, s1)
  | (RateResult.allowed, s1) =>
    match validateScoreProgression s1 playerName sc with
    | ProgResult.invalid reason => (SubmitResult.err reason, s1)
    | ProgResult.valid => upsertScore s1 now (strToLower playerName) sc

/-- `POST /api/submit-score`.  `name = none` / `score = none` stand for an
absent or non-string (resp. non-number) body field; the JS truthiness
guards `!name` and `!score` reject `""` and `0`. -/
def submitScore (s : Store) (now : ℤ) (name : Option String)
    (score : Option ℚ) (sessionId : Option String) (tok : String) :
    SubmitResult × Store :=
  match name with
  | none => (SubmitResult.err invalidNameMsg, s)
  | some nm =>
    if nm = "" then (SubmitResult.err invalidNameMsg, s)
    else if ¬ isValidName (strTrim nm) then (SubmitResult.err invalidNameMsg, s)
    else match score with
      | none => (SubmitResult.err invalidScoreMsg, s)
      | some sc =>
        if sc = 0 then (SubmitResult.err invalidScoreMsg, s)
        else if ¬ isValidScore sc then (SubmitResult.err invalidScoreMsg, s)
        else submitCore s now (strTrim nm) sc sessionId tok

/-- Sort order of `ORDER BY score DESC`: `a` before `b` when
`b.score ≤ a.score`. -/
def scoreGE (a b : ScoreRecord) : Prop := b.score ≤ a.score

instance : DecidableRel scoreGE :=
  fun a b => inferInstanceAs (Decidable (b.score ≤ a.score))

instance : IsTotal ScoreRecord scoreGE := ⟨fun a b => le_total b.score a.score⟩

instance : IsTrans ScoreRecord scoreGE := ⟨fun _ _ _ h1 h2 => le_trans h2 h1⟩

/-- The rows of the leaderboard table in `ORDER BY score DESC` order. -/
def sortByScoreDesc (l : List ScoreRecord) : List ScoreRecord :=
  l.insertionSort scoreGE

/-- `GET /api/leaderboard`: top 10 by score descending. -/
def getTopScores (s : Store) : List ScoreRecord :=
  (sortByScoreDesc s.leaderboard).take 10

/-- Response of `GET /api/rank/:name`. -/
structure RankResult where
  rank : Option ℕ
  totalPlayers : ℕ
deriving Repr, DecidableEq

/-- `GET /api/rank/:name`: `ROW_NUMBER() OVER (ORDER BY score DESC)` and
`COUNT(*) OVER()` of the row whose name matches; when no row matches,
the endpoint answers `rank = null`, `totalPlayers = 0`. -/
def getRank (s : Store) (name : String) : RankResult :=
  let playerKey := strToLower name
  let rows := sortByScoreDesc s.leaderboard
  match rows.findIdx? (fun r => r.name == playerKey) with
  | some i => { rank := some (i + 1), totalPlayers := rows.length }
  | none => { rank := none, totalPlayers := 0 }

/-- The rate-limit-relevant projection of an ActivityRecord: everything
except the session id. -/
def activityShadow (a : ActivityRecord) : String × ℤ × ℤ × ℤ :=
  (a.name, a.lastSubmission, a.submissionCount, a.firstSeen)

/-- The store invariant backed by the `UNIQUE` constraint on
`leaderboard.name`: pairwise distinct names. -/
def NamesUnique (l : List ScoreRecord) : Prop :=
  l.Pairwise (fun a b => a.name ≠ b.name)

/-- Stores reachable from the empty database through the submit-score
endpoint (the only write path). -/
inductive Reachable : Store → Prop where
  | init : Reachable ⟨[], []⟩
  | step (s : Store) (now : ℤ) (name : Option String) (score : Option ℚ)
      (sid : Option String) (tok : String) :
      Reachable s → Reachable (submitScore s now name score sid tok).2

theorem findIdx?_eq_none_of_all {α : Type} (p : α → Bool) (l : List α)
    (h : ∀ x ∈ l, p x = false) : ∀ i, l.findIdx? p i = none := by
  induction l with
  | nil => intro i; rfl
  | cons a t ih =>
    intro i
    rw [List.findIdx?_cons, h a (List.mem_cons_self a t),
      ih (fun x hx => h x (List.mem_cons_of_mem a hx)) (i + 1)]
    rfl

/-- C2: `isValidScore s` is true exactly when `s` is an integer with
`0 < s ≤ 3600` (the configured maximum plausible score). -/
theorem isValidScore_spec (s : ℚ) :
    isValidScore s = true ↔ (∃ n : ℤ, s = (n : ℚ)) ∧ 0 < s ∧ s ≤ 3600 := by
  unfold isValidScore MAX_SCORE
  simp only [Bool.and_eq_true, decide_eq_true_eq, beq_iff_eq]
  constructor
  · rintro ⟨⟨h1, h2⟩, h3⟩
    exact ⟨⟨s.num, ((Rat.den_eq_one_iff s).mp h3).symm⟩, h1, h2⟩
  · rintro ⟨⟨n, rfl⟩, h1, h2⟩
    exact ⟨⟨h1, h2⟩, Rat.den_intCast n⟩

/-- C8 counterexample: the claim says `isValidName raw` is true iff the
*trimmed* string matches `[A-Za-z0-9_]{3,16}`, but `isValidName` does not
trim: at `raw = " abc "` the trimmed string matches while `isValidName`
returns false (trimming happens at the call site instead). -/
theorem isValidName_no_trim_cex :
    isValidName " abc " = false ∧ isValidName (strTrim " abc ") = true := by
  decide

/-- C8 (amended): `isValidName raw` is true iff `raw` itself — with no
trimming — has length in `[3, 16]` and only characters in
`[A-Za-z0-9_]`; the submit handler passes it the already-trimmed name. -/
theorem isValidName_spec (raw : String) :
    isValidName raw = true ↔
      3 ≤ raw.length ∧ raw.length ≤ 16 ∧
      ∀ c ∈ raw.data,
        ('a' ≤ c ∧ c ≤ 'z') ∨ ('A' ≤ c ∧ c ≤ 'Z') ∨
        ('0' ≤ c ∧ c ≤ '9') ∨ c = '_' := by
  unfold isValidName wordChar
  simp only [Bool.and_eq_true, decide_eq_true_eq, List.all_eq_true,
    Bool.or_eq_true]
  constructor
  · rintro ⟨⟨hall, h3⟩, h16⟩
    refine ⟨h3, h16, ?_⟩
    intro c hc
    have h := hall c hc
    tauto
  · rintro ⟨h3, h16, hall⟩
    refine ⟨⟨?_, h3⟩, h16⟩
    intro c hc
    have h := hall c hc
    tauto

/-- C1 counterexample: on a store holding one ScoreRecord, a rank lookup
for an absent name answers `totalPlayers = 0`, not the full record
count 1 as the claim states. -/
theorem getRank_totalPlayers_cex :
    getRank ⟨[⟨"abc", 10, 0⟩], []⟩ "xyz" = { rank := none, totalPlayers := 0 } ∧
    (⟨[⟨"abc", 10, 0⟩], []⟩ : Store).leaderboard.length = 1 := by
  decide

/-- C1 (amended): when the looked-up name has no ScoreRecord, `getRank`
returns `rank = none` and `totalPlayers = 0` (not the full count). -/
theorem getRank_absent (s : Store) (name : String)
    (h : ∀ r ∈ s.leaderboard, r.name ≠ strToLower name) :
    getRank s name = { rank := none, totalPlayers := 0 } := by
  unfold getRank
  have hnone : (sortByScoreDesc s.leaderboard).findIdx?
      (fun r => r.name == strToLower name) = none := by
    apply findIdx?_eq_none_of_all
    intro x hx
    have hx' : x ∈ s.leaderboard :=
      (List.perm_insertionSort scoreGE s.leaderboard).mem_iff.mp hx
    simp [h x hx']
  simp [hnone]

theorem getRank_absent_witness :
    getRank ⟨[⟨"abc", 10, 0⟩], []⟩ "xyz" = { rank := none, totalPlayers := 0 } :=
  getRank_absent ⟨[⟨"abc", 10, 0⟩], []⟩ "xyz" (by decide)

/-- C9: the leaderboard endpoint returns the store's ScoreRecords sorted
by score descending, truncated to 10; the returned records are the
top-scoring ones: the store splits into the returned list plus a
remainder whose every record scores at most every returned record.  In
particular a store with 15 players yields exactly 10 records. -/
theorem getTopScores_spec (s : Store) :
    List.Sorted scoreGE (getTopScores s) ∧
    (getTopScores s).length = min 10 s.leaderboard.length ∧
    (∀ r ∈ getTopScores s, r ∈ s.leaderboard) ∧
    (s.leaderboard.length = 15 → (getTopScores s).length = 10) ∧
    (∃ rest, List.Perm (getTopScores s ++ rest) s.leaderboard ∧
      ∀ r ∈ getTopScores s, ∀ x ∈ rest, x.score ≤ r.score) := by
  refine ⟨?_, ?_, ?_, ?_, ?_⟩
  · exact List.Pairwise.sublist (List.take_sublist 10 _)
      (List.sorted_insertionSort scoreGE s.leaderboard)
  · simp [getTopScores, sortByScoreDesc, List.length_take,
      List.length_insertionSort]
  · intro r hr
    have hr' : r ∈ sortByScoreDesc s.leaderboard :=
      (List.take_sublist 10 _).mem hr
    exact (List.perm_insertionSort scoreGE s.leaderboard).mem_iff.mp hr'
  · intro h15
    simp [getTopScores, sortByScoreDesc, List.length_take,
      List.length_insertionSort, h15]
  · refine ⟨(sortByScoreDesc s.leaderboard).drop 10, ?_, ?_⟩
    · show List.Perm ((sortByScoreDesc s.leaderboard).take 10 ++
        (sortByScoreDesc s.leaderboard).drop 10) s.leaderboard
      rw [List.take_append_drop]
      exact List.perm_insertionSort scoreGE s.leaderboard
    · intro r hr x hx
      have hs := List.sorted_insertionSort scoreGE s.leaderboard
      rw [← List.take_append_drop 10
        (List.insertionSort scoreGE s.leaderboard)] at hs
      exact (List.pairwise_append.mp hs).2.2 r hr x hx

theorem find?_map_ite {α : Type} (name : α → String) (f : α → α)
    (hf : ∀ x, name (f x) = name x) (key : String) (l : List α) :
    (l.map (fun x => if name x == key then f x else x)).find?
        (fun x => name x == key) =
      (l.find? (fun x => name x == key)).map f := by
  induction l with
  | nil => rfl
  | cons a t ih =>
    cases hb : (name a == key) with
    | true =>
      have hfa : (name (f a) == key) = true := by rw [hf]; exact hb
      rw [List.map_cons, if_pos hb,
        List.find?_cons_of_pos (p := fun x => name x == key) _ hfa,
        List.find?_cons_of_pos (p := fun x => name x == key) _ hb]
      rfl
    | false =>
      rw [List.map_cons, if_neg (by simp [hb]),
        List.find?_cons_of_neg (p := fun x => name x == key) _ (by simp [hb]),
        List.find?_cons_of_neg (p := fun x => name x == key) _ (by simp [hb]),
        ih]

/-- C4: for a player with an existing ActivityRecord, a cooldown-active
call is denied with the cooldown reason and any denial leaves the store
untouched, while an allowed call rewrites the record to
`lastSubmission = now` and `submissionCount + 1`. -/
theorem checkRateLimit_existing_spec (s : Store) (now : ℤ) (pn : String)
    (sid : Option String) (tok : String) (a : ActivityRecord)
    (h : s.activity.find? (fun x => x.name == strToLower pn) = some a) :
    (now - a.lastSubmission < 30000 →
      checkRateLimit s now pn sid tok = (RateResult.denied cooldownMsg, s)) ∧
    (∀ reason, (checkRateLimit s now pn sid tok).1 = RateResult.denied reason →
      (checkRateLimit s now pn sid tok).2 = s) ∧
    ((checkRateLimit s now pn sid tok).1 = RateResult.allowed →
      (checkRateLimit s now pn sid tok).2.leaderboard = s.leaderboard ∧
      (checkRateLimit s now pn sid tok).2.activity.find?
          (fun x => x.name == strToLower pn) =
        some { a with lastSubmission := now,
                      submissionCount := a.submissionCount + 1 }) := by
  simp only [checkRateLimit, h]
  by_cases hcool : now - a.lastSubmission < 30000
  · simp [hcool]
  · by_cases hq : daysSinceFirst now a < 1 ∧ 50 ≤ a.submissionCount
    · simp [hcool, hq]
    · have heq : (if now - a.lastSubmission < 30000 then
            (RateResult.denied cooldownMsg, s)
          else if daysSinceFirst now a < 1 ∧ 50 ≤ a.submissionCount then
            (RateResult.denied quotaMsg, s)
          else
            (RateResult.allowed,
              { s with activity := s.activity.map (fun x =>
                  if x.name == strToLower pn then
                    { x with lastSubmission := now,
                             submissionCount := x.submissionCount + 1 }
                  else x) })) =
          (RateResult.allowed,
            { s with activity := s.activity.map (fun x =>
                if x.name == strToLower pn then
                  { x with lastSubmission := now,
                           submissionCount := x.submissionCount + 1 }
                else x) }) := by
        rw [if_neg hcool, if_neg hq]
      rw [heq]
      refine ⟨fun hc => absurd hc hcool, fun reason hr => ?_, fun _ => ⟨rfl, ?_⟩⟩
      · exact absurd hr (by simp)
      · dsimp only
        rw [find?_map_ite ActivityRecord.name
          (fun x => { x with lastSubmission := now,
                             submissionCount := x.submissionCount + 1 })
          (fun _ => rfl) (strToLower pn) s.activity, h]
        rfl

theorem checkRateLimit_existing_spec_witness :
    (Store.mk [] [⟨"abc", 0, 1, 0, "x"⟩]).activity.find?
        (fun x => x.name == strToLower "abc") = some ⟨"abc", 0, 1, 0, "x"⟩ ∧
    (((100000 : ℤ) - 0 < 30000 →
      checkRateLimit ⟨[], [⟨"abc", 0, 1, 0, "x"⟩]⟩ 100000 "abc" none "t" =
        (RateResult.denied cooldownMsg, ⟨[], [⟨"abc", 0, 1, 0, "x"⟩]⟩)) ∧
    (∀ reason,
      (checkRateLimit ⟨[], [⟨"abc", 0, 1, 0, "x"⟩]⟩ 100000 "abc" none "t").1 =
          RateResult.denied reason →
      (checkRateLimit ⟨[], [⟨"abc", 0, 1, 0, "x"⟩]⟩ 100000 "abc" none "t").2 =
        ⟨[], [⟨"abc", 0, 1, 0, "x"⟩]⟩) ∧
    ((checkRateLimit ⟨[], [⟨"abc", 0, 1, 0, "x"⟩]⟩ 100000 "abc" none "t").1 =
        RateResult.allowed →
      (checkRateLimit ⟨[], [⟨"abc", 0, 1, 0, "x"⟩]⟩ 100000 "abc" none
          "t").2.leaderboard = [] ∧
      (checkRateLimit ⟨[], [⟨"abc", 0, 1, 0, "x"⟩]⟩ 100000 "abc" none
          "t").2.activity.find? (fun x => x.name == strToLower "abc") =
        some ⟨"abc", 100000, 2, 0, "x"⟩)) :=
  ⟨by decide,
   checkRateLimit_existing_spec ⟨[], [⟨"abc", 0, 1, 0, "x"⟩]⟩ 100000 "abc"
     none "t" ⟨"abc", 0, 1, 0, "x"⟩ (by decide)⟩

/-- C5: for a player past the cooldown gate, the call is denied with the
quota reason exactly when less than one day has elapsed since first
contact and `submissionCount ≥ 50`; once a full day has elapsed the call
is allowed no matter how large the counter is. -/
theorem checkRateLimit_quota_spec (s : Store) (now : ℤ) (pn : String)
    (sid : Option String) (tok : String) (a : ActivityRecord)
    (h : s.activity.find? (fun x => x.name == strToLower pn) = some a)
    (hcool : ¬ now - a.lastSubmission < 30000) :
    ((checkRateLimit s now pn sid tok).1 = RateResult.denied quotaMsg ↔
      daysSinceFirst now a < 1 ∧ 50 ≤ a.submissionCount) ∧
    (1 ≤ daysSinceFirst now a →
      (checkRateLimit s now pn sid tok).1 = RateResult.allowed) := by
  simp only [checkRateLimit, h]
  by_cases hq : daysSinceFirst now a < 1 ∧ 50 ≤ a.submissionCount
  · constructor
    · simp [hcool, hq]
    · intro h1
      exact absurd (lt_of_lt_of_le hq.1 h1) (lt_irrefl _)
  · constructor
    · simp [hcool, hq]
    · intro h1
      simp [hcool, hq]

theorem checkRateLimit_quota_spec_witness :
    (Store.mk [] [⟨"abc", 0, 50, 0, "x"⟩]).activity.find?
        (fun x => x.name == strToLower "abc") = some ⟨"abc", 0, 50, 0, "x"⟩ ∧
    ¬ (40000 : ℤ) - 0 < 30000 ∧
    (((checkRateLimit ⟨[], [⟨"abc", 0, 50, 0, "x"⟩]⟩ 40000 "abc" none "t").1 =
        RateResult.denied quotaMsg ↔
      daysSinceFirst 40000 ⟨"abc", 0, 50, 0, "x"⟩ < 1 ∧
        (50 : ℤ) ≤ 50) ∧
    (1 ≤ daysSinceFirst 40000 ⟨"abc", 0, 50, 0, "x"⟩ →
      (checkRateLimit ⟨[], [⟨"abc", 0, 50, 0, "x"⟩]⟩ 40000 "abc" none "t").1 =
        RateResult.allowed)) :=
  ⟨by decide, by decide,
   checkRateLimit_quota_spec ⟨[], [⟨"abc", 0, 50, 0, "x"⟩]⟩ 40000 "abc" none
     "t" ⟨"abc", 0, 50, 0, "x"⟩ (by decide) (by decide)⟩

/-- C7: a player with no ActivityRecord is always allowed, and the call
creates a record with `firstSeen = lastSubmission = now`,
`submissionCount = 1` and a session id that is the supplied hint or a
freshly generated token. -/
theorem checkRateLimit_first_contact (s : Store) (now : ℤ) (pn : String)
    (sid : Option String) (tok : String)
    (h : s.activity.find? (fun x => x.name == strToLower pn) = none) :
    checkRateLimit s now pn sid tok =
      (RateResult.allowed,
        { s with activity := s.activity ++
            [{ name := strToLower pn, lastSubmission := now,
               submissionCount := 1, firstSeen := now,
               sessionId := sessionIdOr sid tok }] }) ∧
    ((∃ h0, sid = some h0 ∧ sessionIdOr sid tok = h0) ∨
      sessionIdOr sid tok = tok) := by
  constructor
  · simp only [checkRateLimit, h]
  · cases sid with
    | none => exact Or.inr rfl
    | some v =>
      by_cases hv : v = ""
      · exact Or.inr (by simp [sessionIdOr, hv])
      · exact Or.inl ⟨v, rfl, by simp [sessionIdOr, hv]⟩

theorem checkRateLimit_first_contact_witness :
    (Store.mk [] []).activity.find?
        (fun x => x.name == strToLower "Abc") = none ∧
    (checkRateLimit ⟨[], []⟩ 5 "Abc" (some "sid1") "t" =
      (RateResult.allowed,
        ⟨[], [{ name := strToLower "Abc", lastSubmission := 5,
                submissionCount := 1, firstSeen := 5,
                sessionId := sessionIdOr (some "sid1") "t" }]⟩) ∧
    ((∃ h0, (some "sid1" : Option String) = some h0 ∧
        sessionIdOr (some "sid1") "t" = h0) ∨
      sessionIdOr (some "sid1") "t" = "t")) :=
  ⟨by decide, checkRateLimit_first_contact ⟨[], []⟩ 5 "Abc" (some "sid1") "t"
    (by decide)⟩

theorem upsertScore_fst (s : Store) (now : ℤ) (key : String) (sc : ℚ) :
    (upsertScore s now key sc).1 = SubmitResult.ok savedMsg := by
  unfold upsertScore
  split <;> rfl

theorem upsertScore_activity (s : Store) (now : ℤ) (key : String) (sc : ℚ) :
    (upsertScore s now key sc).2.activity = s.activity := by
  unfold upsertScore
  split <;> rfl

theorem checkRateLimit_leaderboard (s : Store) (now : ℤ) (pn : String)
    (sid : Option String) (tok : String) :
    (checkRateLimit s now pn sid tok).2.leaderboard = s.leaderboard := by
  simp only [checkRateLimit]
  split
  · rfl
  · split
    · rfl
    · split <;> rfl

theorem validateScoreProgression_congr (s1 s2 : Store) (pn : String) (sc : ℚ)
    (h : s1.leaderboard = s2.leaderboard) :
    validateScoreProgression s1 pn sc = validateScoreProgression s2 pn sc := by
  simp only [validateScoreProgression, h]

theorem upsertScore_leaderboard_congr (s1 s2 : Store) (now : ℤ) (key : String)
    (sc : ℚ) (h : s1.leaderboard = s2.leaderboard) :
    (upsertScore s1 now key sc).2.leaderboard =
      (upsertScore s2 now key sc).2.leaderboard := by
  unfold upsertScore
  rw [h]
  cases hf : s2.leaderboard.find? (fun r => r.name == key) with
  | none => rfl
  | some e => rfl

theorem submitScore_eq_cases (s : Store) (now : ℤ) (name : Option String)
    (score : Option ℚ) :
    (∃ m, ∀ sid tok, submitScore s now name score sid tok =
      (SubmitResult.err m, s)) ∨
    (∃ nm sc, name = some nm ∧ score = some sc ∧
      ∀ sid tok, submitScore s now name score sid tok =
        submitCore s now (strTrim nm) sc sid tok) := by
  cases name with
  | none => exact Or.inl ⟨invalidNameMsg, fun _ _ => rfl⟩
  | some nm =>
    by_cases h1 : nm = ""
    · refine Or.inl ⟨invalidNameMsg, fun sid tok => ?_⟩
      simp only [submitScore, if_pos h1]
    · by_cases h2 : isValidName (strTrim nm) = true
      · cases score with
        | none =>
          refine Or.inl ⟨invalidScoreMsg, fun sid tok => ?_⟩
          simp only [submitScore, if_neg h1, if_neg (not_not_intro h2)]
        | some sc =>
          by_cases h3 : sc = 0
          · refine Or.inl ⟨invalidScoreMsg, fun sid tok => ?_⟩
            simp only [submitScore, if_neg h1, if_neg (not_not_intro h2),
              if_pos h3]
          · by_cases h4 : isValidScore sc = true
            · refine Or.inr ⟨nm, sc, rfl, rfl, fun sid tok => ?_⟩
              simp only [submitScore, if_neg h1, if_neg (not_not_intro h2),
                if_neg h3, if_neg (not_not_intro h4)]
            · refine Or.inl ⟨invalidScoreMsg, fun sid tok => ?_⟩
              simp only [submitScore, if_neg h1, if_neg (not_not_intro h2),
                if_neg h3, if_pos h4]
      · refine Or.inl ⟨invalidNameMsg, fun sid tok => ?_⟩
        simp only [submitScore, if_neg h1, if_pos h2]

theorem submitCore_err_leaderboard (s : Store) (now : ℤ) (pn : String)
    (sc : ℚ) (sid : Option String) (tok : String) (msg : String)
    (h : (submitCore s now pn sc sid tok).1 = SubmitResult.err msg) :
    (submitCore s now pn sc sid tok).2.leaderboard = s.leaderboard := by
  have hlb := checkRateLimit_leaderboard s now pn sid tok
  unfold submitCore at h ⊢
  rcases hc : checkRateLimit s now pn sid tok with ⟨r, s1⟩
  rw [hc] at h hlb
  cases r with
  | denied reason => exact hlb
  | allowed =>
    dsimp only at h ⊢
    cases hv : validateScoreProgression s1 pn sc with
    | invalid reason => exact hlb
    | valid =>
      simp only [hv] at h
      rw [upsertScore_fst] at h
      exact absurd h (by simp)

/-- C3 counterexample: a submitScore call rejected by the progression
check (after the rate-limit gate passed) still mutates the
ActivityRecord set: `lastSubmission` and `submissionCount` of the
player's activity row are updated before the rejection. -/
theorem submitScore_rejected_mutates_activity_cex :
    (submitScore ⟨[⟨"abc", 10, 0⟩], [⟨"abc", 0, 1, 0, "x"⟩]⟩ 100000
        (some "abc") (some 5) none "t").1 =
      SubmitResult.err (progressionMsg 10) ∧
    (submitScore ⟨[⟨"abc", 10, 0⟩], [⟨"abc", 0, 1, 0, "x"⟩]⟩ 100000
        (some "abc") (some 5) none "t").2.activity ≠
      [⟨"abc", 0, 1, 0, "x"⟩] := by
  have heval : submitScore ⟨[⟨"abc", 10, 0⟩], [⟨"abc", 0, 1, 0, "x"⟩]⟩ 100000
      (some "abc") (some 5) none "t" =
      (SubmitResult.err (progressionMsg 10),
        ⟨[⟨"abc", 10, 0⟩], [⟨"abc", 100000, 2, 0, "x"⟩]⟩) := by
    simp [submitScore, submitCore, checkRateLimit, validateScoreProgression,
      upsertScore, strToLower, strTrim, jsToLower, isValidName, wordChar,
      isValidScore, MAX_SCORE]
    norm_num [String.length]
  rw [heval]
  exact ⟨rfl, by decide⟩

/-- C3 (amended): a rejected submitScore call leaves the ScoreRecord set
unchanged (and the two read-only operations never change the store),
but the ActivityRecord set is not always preserved: a progression
failure happens after the rate-limit gate already updated the player's
activity row. -/
theorem submitScore_err_leaderboard_unchanged (s : Store) (now : ℤ)
    (name : Option String) (score : Option ℚ) (sid : Option String)
    (tok : String) (msg : String)
    (h : (submitScore s now name score sid tok).1 = SubmitResult.err msg) :
    (submitScore s now name score sid tok).2.leaderboard = s.leaderboard := by
  rcases submitScore_eq_cases s now name score with ⟨m, hm⟩ | ⟨nm, sc, _, _, hcore⟩
  · rw [hm sid tok]
  · rw [hcore sid tok] at h ⊢
    exact submitCore_err_leaderboard s now (strTrim nm) sc sid tok msg h

theorem submitScore_err_leaderboard_unchanged_witness :
    (submitScore ⟨[], []⟩ 0 none none none "t").1 =
      SubmitResult.err invalidNameMsg ∧
    (submitScore ⟨[], []⟩ 0 none none none "t").2.leaderboard = [] :=
  ⟨rfl, submitScore_err_leaderboard_unchanged ⟨[], []⟩ 0 none none none "t"
    invalidNameMsg rfl⟩

theorem checkRateLimit_sid_invariant (s : Store) (now : ℤ) (pn : String)
    (sid1 sid2 : Option String) (tok : String) :
    (checkRateLimit s now pn sid1 tok).1 = (checkRateLimit s now pn sid2 tok).1 ∧
    (checkRateLimit s now pn sid1 tok).2.leaderboard =
      (checkRateLimit s now pn sid2 tok).2.leaderboard ∧
    (checkRateLimit s now pn sid1 tok).2.activity.map activityShadow =
      (checkRateLimit s now pn sid2 tok).2.activity.map activityShadow := by
  simp only [checkRateLimit]
  cases hf : s.activity.find? (fun x => x.name == strToLower pn) with
  | none =>
    refine ⟨rfl, rfl, ?_⟩
    simp only [List.map_append, List.map, activityShadow]
  | some c => exact ⟨rfl, rfl, rfl⟩

theorem checkRateLimit_preserves_sid (s : Store) (now : ℤ) (pn : String)
    (sid : Option String) (tok : String) :
    ∀ a ∈ s.activity, ∃ b ∈ (checkRateLimit s now pn sid tok).2.activity,
      b.name = a.name ∧ b.sessionId = a.sessionId := by
  intro a ha
  simp only [checkRateLimit]
  cases hf : s.activity.find? (fun x => x.name == strToLower pn) with
  | none => exact ⟨a, List.mem_append_left _ ha, rfl, rfl⟩
  | some c =>
    dsimp only
    by_cases h1 : now - c.lastSubmission < 30000
    · rw [if_pos h1]
      exact ⟨a, ha, rfl, rfl⟩
    · rw [if_neg h1]
      by_cases h2 : daysSinceFirst now c < 1 ∧ 50 ≤ c.submissionCount
      · rw [if_pos h2]
        exact ⟨a, ha, rfl, rfl⟩
      · rw [if_neg h2]
        refine ⟨if (a.name == strToLower pn) = true then
            { a with lastSubmission := now,
                     submissionCount := a.submissionCount + 1 } else a,
          List.mem_map_of_mem _ ha, ?_, ?_⟩
        · by_cases h3 : (a.name == strToLower pn) = true
          · rw [if_pos h3]
          · rw [if_neg h3]
        · by_cases h3 : (a.name == strToLower pn) = true
          · rw [if_pos h3]
          · rw [if_neg h3]

theorem submitCore_activity_eq (s : Store) (now : ℤ) (pn : String) (sc : ℚ)
    (sid : Option String) (tok : String) :
    (submitCore s now pn sc sid tok).2.activity =
      (checkRateLimit s now pn sid tok).2.activity := by
  unfold submitCore
  rcases hc : checkRateLimit s now pn sid tok with ⟨r, s1⟩
  cases r with
  | denied reason => rfl
  | allowed =>
    dsimp only
    cases hv : validateScoreProgression s1 pn sc with
    | invalid reason => rfl
    | valid => exact upsertScore_activity s1 now (strToLower pn) sc

theorem submitCore_sid (s : Store) (now : ℤ) (pn : String) (sc : ℚ)
    (sid1 sid2 : Option String) (tok : String) :
    (submitCore s now pn sc sid1 tok).1 = (submitCore s now pn sc sid2 tok).1 ∧
    (submitCore s now pn sc sid1 tok).2.leaderboard =
      (submitCore s now pn sc sid2 tok).2.leaderboard ∧
    (submitCore s now pn sc sid1 tok).2.activity.map activityShadow =
      (submitCore s now pn sc sid2 tok).2.activity.map activityShadow := by
  obtain ⟨h1, h2, h3⟩ := checkRateLimit_sid_invariant s now pn sid1 sid2 tok
  unfold submitCore
  rcases hc1 : checkRateLimit s now pn sid1 tok with ⟨r1, s1⟩
  rcases hc2 : checkRateLimit s now pn sid2 tok with ⟨r2, s2⟩
  rw [hc1, hc2] at h1 h2 h3
  dsimp only at h1 h2 h3
  subst h1
  cases r1 with
  | denied reason => exact ⟨rfl, h2, h3⟩
  | allowed =>
    dsimp only
    have hv12 : validateScoreProgression s1 pn sc =
        validateScoreProgression s2 pn sc :=
      validateScoreProgression_congr s1 s2 pn sc h2
    cases hv : validateScoreProgression s2 pn sc with
    | invalid reason =>
      rw [hv12.trans hv]
      exact ⟨rfl, h2, h3⟩
    | valid =>
      rw [hv12.trans hv]
      dsimp only
      refine ⟨?_, ?_, ?_⟩
      · rw [upsertScore_fst, upsertScore_fst]
      · exact upsertScore_leaderboard_congr s1 s2 now (strToLower pn) sc h2
      · rw [upsertScore_activity, upsertScore_activity]
        exact h3

/-- C10: the supplied sessionId never influences gating: two submit
calls differing only in the sessionId hint produce the same result
(success or exact rejection message), the same ScoreRecord set, and
ActivityRecord sets that agree on everything except possibly the stored
session id of a newly created record; existing records keep their
session id (it is never read, compared or overwritten). -/
theorem submitScore_sessionId_noninterference (s : Store) (now : ℤ)
    (name : Option String) (score : Option ℚ) (sid1 sid2 : Option String)
    (tok : String) :
    (submitScore s now name score sid1 tok).1 =
      (submitScore s now name score sid2 tok).1 ∧
    (submitScore s now name score sid1 tok).2.leaderboard =
      (submitScore s now name score sid2 tok).2.leaderboard ∧
    (submitScore s now name score sid1 tok).2.activity.map activityShadow =
      (submitScore s now name score sid2 tok).2.activity.map activityShadow ∧
    (∀ a ∈ s.activity, ∃ b ∈ (submitScore s now name score sid1 tok).2.activity,
      b.name = a.name ∧ b.sessionId = a.sessionId) := by
  rcases submitScore_eq_cases s now name score with ⟨m, hm⟩ | ⟨nm, sc, _, _, hcore⟩
  · rw [hm sid1 tok, hm sid2 tok]
    exact ⟨rfl, rfl, rfl, fun a ha => ⟨a, ha, rfl, rfl⟩⟩
  · obtain ⟨g1, g2, g3⟩ := submitCore_sid s now (strTrim nm) sc sid1 sid2 tok
    refine ⟨?_, ?_, ?_, ?_⟩
    · rw [hcore sid1 tok, hcore sid2 tok]
      exact g1
    · rw [hcore sid1 tok, hcore sid2 tok]
      exact g2
    · rw [hcore sid1 tok, hcore sid2 tok]
      exact g3
    · intro a ha
      rw [hcore sid1 tok, submitCore_activity_eq]
      exact checkRateLimit_preserves_sid s now (strTrim nm) sid1 tok a ha

theorem eq_of_mem_unique :
    ∀ l : List ScoreRecord, NamesUnique l → ∀ a b : ScoreRecord,
      a ∈ l → b ∈ l → a.name = b.name → a = b := by
  intro l
  induction l with
  | nil => intro _ a b ha _ _; cases ha
  | cons x t ih =>
    intro h a b ha hb hn
    simp only [NamesUnique, List.pairwise_cons] at h
    rcases List.mem_cons.mp ha with rfl | ha'
    · rcases List.mem_cons.mp hb with rfl | hb'
      · rfl
      · exact absurd hn (h.1 b hb')
    · rcases List.mem_cons.mp hb with rfl | hb'
      · exact absurd hn.symm (h.1 a ha')
      · exact ih h.2 a b ha' hb' hn

theorem find?_of_unique :
    ∀ l : List ScoreRecord, NamesUnique l → ∀ r ∈ l,
      l.find? (fun x => x.name == r.name) = some r := by
  intro l
  induction l with
  | nil => intro _ r hr; cases hr
  | cons x t ih =>
    intro h r hr
    simp only [NamesUnique, List.pairwise_cons] at h
    rcases List.mem_cons.mp hr with rfl | hr'
    · exact List.find?_cons_of_pos _ (by simp)
    · have hx : ¬ (x.name == r.name) = true := by
        simp only [beq_iff_eq]
        exact h.1 r hr'
      rw [List.find?_cons_of_neg (p := fun y : ScoreRecord => y.name == r.name) _ hx]
      exact ih h.2 r hr'

theorem NamesUnique_map_update (l : List ScoreRecord) (sc : ℚ) (now : ℤ)
    (key : String) (h : NamesUnique l) :
    NamesUnique (l.map (fun r => if r.name == key then
      { r with score := sc, timestamp := now } else r)) := by
  have hname : ∀ r : ScoreRecord,
      ((if r.name == key then { r with score := sc, timestamp := now }
        else r) : ScoreRecord).name = r.name := by
    intro r
    by_cases hr : (r.name == key) = true
    · rw [if_pos hr]
    · rw [if_neg hr]
  rw [NamesUnique, List.pairwise_map]
  exact h.imp (fun hab => by rw [hname, hname]; exact hab)

theorem NamesUnique_append_new (l : List ScoreRecord) (r : ScoreRecord)
    (h : NamesUnique l) (hr : l.find? (fun x => x.name == r.name) = none) :
    NamesUnique (l ++ [r]) := by
  rw [NamesUnique, List.pairwise_append]
  refine ⟨h, List.pairwise_singleton _ _, ?_⟩
  intro a ha b hb
  rw [List.mem_singleton] at hb
  subst hb
  have := List.find?_eq_none.mp hr a ha
  simpa using this

theorem validateScoreProgression_valid_lt (s : Store) (pn : String) (q : ℚ)
    (e : ScoreRecord)
    (hf : s.leaderboard.find? (fun r => r.name == strToLower pn) = some e)
    (hv : validateScoreProgression s pn q = ProgResult.valid) :
    e.score < q := by
  simp only [validateScoreProgression, hf] at hv
  by_cases hle : q ≤ e.score
  · rw [if_pos hle] at hv
    exact absurd hv (by simp)
  · exact not_le.mp hle

theorem submitCore_leaderboard_cases (s : Store) (now : ℤ) (pn : String)
    (sc : ℚ) (sid : Option String) (tok : String) :
    (submitCore s now pn sc sid tok).2.leaderboard = s.leaderboard ∨
    (∃ e, s.leaderboard.find? (fun r => r.name == strToLower pn) = some e ∧
      e.score < sc ∧
      (submitCore s now pn sc sid tok).2.leaderboard =
        s.leaderboard.map (fun r => if r.name == strToLower pn then
          { r with score := sc, timestamp := now } else r)) ∨
    (s.leaderboard.find? (fun r => r.name == strToLower pn) = none ∧
      (submitCore s now pn sc sid tok).2.leaderboard =
        s.leaderboard ++ [⟨strToLower pn, sc, now⟩]) := by
  have hlb := checkRateLimit_leaderboard s now pn sid tok
  unfold submitCore
  rcases hc : checkRateLimit s now pn sid tok with ⟨r, s1⟩
  rw [hc] at hlb
  dsimp only at hlb
  cases r with
  | denied reason => exact Or.inl hlb
  | allowed =>
    dsimp only
    cases hv : validateScoreProgression s1 pn sc with
    | invalid reason => exact Or.inl hlb
    | valid =>
      unfold upsertScore
      rw [hlb]
      cases hf : s.leaderboard.find? (fun r => r.name == strToLower pn) with
      | none => exact Or.inr (Or.inr ⟨rfl, rfl⟩)
      | some e =>
        have hfs : s1.leaderboard.find?
            (fun r => r.name == strToLower pn) = some e := by
          rw [hlb]
          exact hf
        have hlt : e.score < sc :=
          validateScoreProgression_valid_lt s1 pn sc e hfs hv
        exact Or.inr (Or.inl ⟨e, rfl, hlt, rfl⟩)

theorem submitScore_preserves_unique (s : Store) (now : ℤ)
    (name : Option String) (score : Option ℚ) (sid : Option String)
    (tok : String) (h : NamesUnique s.leaderboard) :
    NamesUnique (submitScore s now name score sid tok).2.leaderboard := by
  rcases submitScore_eq_cases s now name score with ⟨m, hm⟩ | ⟨nm, sc, _, _, hcore⟩
  · rw [hm sid tok]
    exact h
  · rw [hcore sid tok]
    rcases submitCore_leaderboard_cases s now (strTrim nm) sc sid tok with
      hl | ⟨e, hf, hlt, hl⟩ | ⟨hf, hl⟩
    · rw [hl]
      exact h
    · rw [hl]
      exact NamesUnique_map_update s.leaderboard sc now (strToLower (strTrim nm)) h
    · rw [hl]
      exact NamesUnique_append_new s.leaderboard ⟨strToLower (strTrim nm), sc, now⟩ h hf

theorem reachable_names_unique (s : Store) (h : Reachable s) :
    NamesUnique s.leaderboard := by
  induction h with
  | init => exact List.Pairwise.nil
  | step s now name score sid tok _ ih =>
    exact submitScore_preserves_unique s now name score sid tok ih

theorem submitScore_score_mono (s : Store) (hu : NamesUnique s.leaderboard)
    (now : ℤ) (name : Option String) (score : Option ℚ) (sid : Option String)
    (tok : String) (r rr : ScoreRecord)
    (hr : r ∈ s.leaderboard)
    (hrr : rr ∈ (submitScore s now name score sid tok).2.leaderboard)
    (hn : r.name = rr.name) : r.score ≤ rr.score := by
  rcases submitScore_eq_cases s now name score with ⟨m, hm⟩ | ⟨nm, sc, _, _, hcore⟩
  · rw [hm sid tok] at hrr
    rw [eq_of_mem_unique s.leaderboard hu r rr hr hrr hn]
  · rw [hcore sid tok] at hrr
    rcases submitCore_leaderboard_cases s now (strTrim nm) sc sid tok with
      hl | ⟨e, hf, hlt, hl⟩ | ⟨hf, hl⟩
    · rw [hl] at hrr
      rw [eq_of_mem_unique s.leaderboard hu r rr hr hrr hn]
    · rw [hl] at hrr
      rcases List.mem_map.mp hrr with ⟨x, hx, hfx⟩
      by_cases hxk : (x.name == strToLower (strTrim nm)) = true
      · rw [if_pos hxk] at hfx
        have hxname : rr.name = x.name := by rw [← hfx]
        have hrx : r = x :=
          eq_of_mem_unique s.leaderboard hu r x hr hx (hn.trans hxname)
        have hex : e = x := by
          have hem : e ∈ s.leaderboard := List.mem_of_find?_eq_some hf
          have hen := List.find?_some hf
          rw [beq_iff_eq] at hen hxk
          exact eq_of_mem_unique s.leaderboard hu e x hem hx (hen.trans hxk.symm)
        have hre : r.score = e.score := by rw [hrx, hex]
        rw [hre, ← hfx]
        exact le_of_lt hlt
      · rw [if_neg hxk] at hfx
        have hrx : r = x :=
          eq_of_mem_unique s.leaderboard hu r x hr hx (by rw [hn, ← hfx])
        rw [hrx, hfx]
    · rw [hl] at hrr
      rcases List.mem_append.mp hrr with h1 | h1
      · rw [eq_of_mem_unique s.leaderboard hu r rr hr h1 hn]
      · have hreq : rr = ⟨strToLower (strTrim nm), sc, now⟩ :=
          List.mem_singleton.mp h1
        have hno := List.find?_eq_none.mp hf r hr
        rw [beq_iff_eq] at hno
        exact absurd (by rw [hn, hreq]) hno

/-- C6: in every reachable store each case-folded name has at most one
ScoreRecord; one submitScore step never decreases the stored score of
any name, and a submission not exceeding the stored best of an existing
record is rejected by the progression check with the personal-best
message. -/
theorem reachable_unique_monotone (s : Store) (hs : Reachable s)
    (now : ℤ) (name : Option String) (score : Option ℚ) (sid : Option String)
    (tok : String) (r rr : ScoreRecord)
    (hr : r ∈ s.leaderboard)
    (hrr : rr ∈ (submitScore s now name score sid tok).2.leaderboard)
    (hn : r.name = rr.name) :
    NamesUnique s.leaderboard ∧
    NamesUnique (submitScore s now name score sid tok).2.leaderboard ∧
    r.score ≤ rr.score ∧
    (∀ pn q, strToLower pn = r.name → q ≤ r.score →
      validateScoreProgression s pn q =
        ProgResult.invalid (progressionMsg r.score)) := by
  have hu := reachable_names_unique s hs
  refine ⟨hu, submitScore_preserves_unique s now name score sid tok hu,
    submitScore_score_mono s hu now name score sid tok r rr hr hrr hn, ?_⟩
  intro pn q hpn hq
  simp only [validateScoreProgression]
  rw [hpn, find?_of_unique s.leaderboard hu r hr]
  simp only [if_pos hq]

theorem reachable_unique_monotone_witness :
    NamesUnique ((submitScore ⟨[], []⟩ 0 (some "abc") (some 10) none
      "t").2).leaderboard ∧
    NamesUnique ((submitScore ((submitScore ⟨[], []⟩ 0 (some "abc") (some 10)
      none "t").2) 0 (some "abc") (some 11) none "t").2).leaderboard ∧
    (⟨"abc", 10, 0⟩ : ScoreRecord).score ≤ (⟨"abc", 10, 0⟩ : ScoreRecord).score ∧
    (∀ pn q, strToLower pn = (⟨"abc", 10, 0⟩ : ScoreRecord).name →
      q ≤ (⟨"abc", 10, 0⟩ : ScoreRecord).score →
      validateScoreProgression
          ((submitScore ⟨[], []⟩ 0 (some "abc") (some 10) none "t").2) pn q =
        ProgResult.invalid (progressionMsg (⟨"abc", 10, 0⟩ : ScoreRecord).score)) :=
  reachable_unique_monotone
    ((submitScore ⟨[], []⟩ 0 (some "abc") (some 10) none "t").2)
    (Reachable.step ⟨[], []⟩ 0 (some "abc") (some 10) none "t" Reachable.init)
    0 (some "abc") (some 11) none "t" ⟨"abc", 10, 0⟩ ⟨"abc", 10, 0⟩
    (by decide) (by decide) rfl

end Laciola
